import Mathlib

/-!
Verification of the `ukrainian-llm-leaderboard` helper scripts: a shallow
embedding of the two HTTP proxies (`groq_proxy.py`, `reasoning_proxy.py`) and
the benchmark filter functions (`tasks/ukrainian_bench/common_filters.py`),
together with theorems settling the specification claims about them.

JSON values are modelled by the inductive `JVal`; Python dictionaries (as
produced by `json.loads`) are ordered association lists with unique keys, so
dictionary read, write and `pop` become `getK`, `setK` and `popK`.  Each proxy
handler becomes a pure function from the request data to an `Outcome` that
records the HTTP status sent back, an unhandled-exception crash, or the body
forwarded upstream.
-/

namespace UkrLLM

/-- JSON values as produced by Python `json.loads`.  Objects keep insertion
order; numbers are modelled as integers (the distinction between `int` and
`float` plays no role in any claim). -/
inductive JVal where
  | null
  | bool (b : Bool)
  | num (n : Int)
  | str (s : String)
  | arr (elems : List JVal)
  | obj (fields : List (String × JVal))

/-- Python truthiness of a JSON value (`bool(v)`): `None`, `False`, `0`, `""`,
`[]` and `{}` are falsy, everything else is truthy. -/
def truthy : JVal → Bool
  | .null => false
  | .bool b => b
  | .num n => n != 0
  | .str s => s != ""
  | .arr xs => !xs.isEmpty
  | .obj fs => !fs.isEmpty

/-- Dictionary lookup `d.get(key)` / `key in d` on an association list. -/
def getK {β : Type} : List (String × β) → String → Option β
  | [], _ => none
  | (k, v) :: t, key => if k = key then some v else getK t key

/-- Dictionary assignment `d[key] = v`: replaces the value in place if the key
is present (keeping its position, as Python dicts do), else appends. -/
def setK {β : Type} : List (String × β) → String → β → List (String × β)
  | [], key, v => [(key, v)]
  | (k, w) :: t, key, v => if k = key then (key, v) :: t else (k, w) :: setK t key v

/-- Dictionary removal `d.pop(key, None)`. -/
def popK {β : Type} : List (String × β) → String → List (String × β)
  | [], _ => []
  | (k, w) :: t, key => if k = key then popK t key else (k, w) :: popK t key

/-- The keys of a dictionary, in order. -/
def keysOf {β : Type} (fs : List (String × β)) : List String := fs.map Prod.fst

theorem getK_setK_self {β : Type} (fs : List (String × β)) (k : String) (v : β) :
    getK (setK fs k v) k = some v := by
  induction fs with
  | nil => simp [getK, setK]
  | cons hd t ih =>
    obtain ⟨k2, w⟩ := hd
    by_cases h : k2 = k <;> simp [getK, setK, h, ih]

theorem getK_setK_ne {β : Type} (fs : List (String × β)) (k key : String) (v : β)
    (h : k ≠ key) : getK (setK fs key v) k = getK fs k := by
  induction fs with
  | nil => simp [getK, setK, Ne.symm h]
  | cons hd t ih =>
    obtain ⟨k2, w⟩ := hd
    by_cases h2 : k2 = key
    · subst h2
      simp [getK, setK, Ne.symm h]
    · simp [getK, setK, h2, ih]

theorem getK_popK_self {β : Type} (fs : List (String × β)) (k : String) :
    getK (popK fs k) k = none := by
  induction fs with
  | nil => simp [getK, popK]
  | cons hd t ih =>
    obtain ⟨k2, w⟩ := hd
    by_cases h : k2 = k <;> simp [getK, popK, h, ih]

theorem getK_popK_ne {β : Type} (fs : List (String × β)) (k key : String)
    (h : k ≠ key) : getK (popK fs key) k = getK fs k := by
  induction fs with
  | nil => simp [popK]
  | cons hd t ih =>
    obtain ⟨k2, w⟩ := hd
    by_cases h2 : k2 = key
    · subst h2
      simp [getK, popK, Ne.symm h, ih]
    · simp [getK, popK, h2, ih]

theorem setK_eq_of_getK {β : Type} (fs : List (String × β)) (k : String) (v : β)
    (h : getK fs k = some v) : setK fs k v = fs := by
  induction fs with
  | nil => simp [getK] at h
  | cons hd t ih =>
    obtain ⟨k2, w⟩ := hd
    by_cases h2 : k2 = k
    · subst h2
      simp [getK] at h
      simp [setK, h]
    · simp [getK, h2] at h
      simp [setK, h2, ih h]

/-! ## Request Normalizer (`groq_proxy.py`) -/

/-- The per-message normalization of `GroqProxyHandler.do_POST`
(`groq_proxy.py` lines 63-69): keep `role` (default `"user"`), `content`
(default `""`), and `name` only when present and truthy. -/
def cleanFields (ms : List (String × JVal)) : List (String × JVal) :=
  let base := [("role", (getK ms "role").getD (.str "user")),
               ("content", (getK ms "content").getD (.str ""))]
  match getK ms "name" with
  | some v => if truthy v then base ++ [("name", v)] else base
  | none => base

/-- Normalization of one entry of `data["messages"]`.  A non-object entry makes
the Python code raise `AttributeError` (`msg.get` on a non-dict), modelled as
`none`. -/
def cleanMsg : JVal → Option JVal
  | .obj ms => some (.obj (cleanFields ms))
  | _ => none

/-- The `if "messages" in data:` block of `GroqProxyHandler.do_POST`
(lines 60-71).  `none` models an uncaught exception: `data["messages"]` not a
list, or a non-object entry. -/
def transformMessages (data : List (String × JVal)) :
    Option (List (String × JVal)) :=
  match getK data "messages" with
  | none => some data
  | some (.arr msgs) =>
      (msgs.mapM cleanMsg).map (fun cl => setK data "messages" (.arr cl))
  | some _ => none

/-- `self.path.endswith("/chat/completions")` (`groq_proxy.py` line 46),
as a suffix test on the character list. -/
def pathOk (path : String) : Bool :=
  "/chat/completions".toList.isSuffixOf path.toList

/-- The observable outcome of handling one inbound request: an HTTP error
status sent to the client, an uncaught exception (connection dropped, nothing
forwarded), or a body forwarded to the upstream API. -/
inductive Outcome where
  | httpError (code : Nat)
  | crash
  | forward (body : List (String × JVal))

/-- One inbound request handled by the Request Normalizer, up to the point of
the outbound call.  The method dispatch models
`http.server.BaseHTTPRequestHandler`, which answers 501 (Unsupported method)
for any HTTP method without a `do_<METHOD>` handler; `GroqProxyHandler`
defines only `do_POST`.  `parsed` is the result of `json.loads` on the body
(`none` = `JSONDecodeError`); the claims only exercise object-shaped bodies.
`apiKey` is `os.environ.get("GROQ_API_KEY")`; the handler rejects a missing
or empty (falsy) key with a 500. -/
def do_POST (method path : String) (parsed : Option (List (String × JVal)))
    (reasoning_hidden : Bool) (reasoning_effort : String)
    (apiKey : Option String) : Outcome :=
  if method ≠ "POST" then .httpError 501
  else if ¬ pathOk path then .httpError 404
  else
    match parsed with
    | none => .httpError 400
    | some data =>
      match transformMessages data with
      | none => .crash
      | some d1 =>
        let d2 := if reasoning_hidden then
            setK (setK d1 "reasoning_format" (.str "hidden"))
              "reasoning_effort" (.str reasoning_effort)
          else d1
        let d3 := popK (popK d2 "tokenized_requests") "extra_body"
        match apiKey with
        | none => .httpError 500
        | some key => if key = "" then .httpError 500 else .forward d3

/-! ## Character-list utilities shared by the models

Python string operations (`strip`, `split`, `partition`, substring search) are
implemented over `List Char`. -/

/-- The whitespace characters stripped by Python `str.strip()` / matched by
`\s` (restricted to ASCII; no claim involves non-ASCII whitespace). -/
def isPySpace (c : Char) : Bool :=
  c = ' ' || c = '\t' || c = '\n' || c = '\r' || c = '\x0b' || c = '\x0c'

def trimLeft (l : List Char) : List Char := l.dropWhile isPySpace

def trimRight (l : List Char) : List Char :=
  (l.reverse.dropWhile isPySpace).reverse

/-- Python `str.strip()`. -/
def pyStrip (l : List Char) : List Char := trimRight (trimLeft l)

/-- Python `str.strip(c)` for a single character `c`: remove every leading and
trailing occurrence. -/
def stripAll (c : Char) (l : List Char) : List Char :=
  ((l.dropWhile (· = c)).reverse.dropWhile (· = c)).reverse

/-- Split before/after the first `'='`, as `str.partition("=")` does (only used
when `'='` occurs). -/
def splitFirstEq : List Char → List Char × List Char
  | [] => ([], [])
  | c :: t =>
    if c = '=' then ([], t)
    else
      let p := splitFirstEq t
      (c :: p.1, p.2)

/-! ## `.env` loading (`groq_proxy.py`, `load_env`, lines 26-38) -/

/-- One line of the `.env` file: strip it, skip it when empty, a `#` comment,
or without `'='`; otherwise partition at the first `'='`, strip the key, and
strip whitespace then double then single quotes from the value. -/
def parseEnvLine (line : String) : Option (String × String) :=
  let l := pyStrip line.toList
  if l = [] then none
  else if l.head? = some '#' then none
  else if ¬ l.contains '=' then none
  else
    let p := splitFirstEq l
    some (String.mk (pyStrip p.1),
          String.mk (stripAll '\'' (stripAll '"' (pyStrip p.2))))

/-- Processing of one `.env` line against the current environment: set the key
only when key and value are non-empty and the key is not already present
(`key not in os.environ`). -/
def envStep (env : List (String × String)) (line : String) :
    List (String × String) :=
  match parseEnvLine line with
  | none => env
  | some kv =>
    if kv.1 ≠ "" ∧ kv.2 ≠ "" ∧ getK env kv.1 = none then kv :: env else env

/-- `load_env`: fold the lines of the `.env` file over the inherited process
environment. -/
def load_env (lines : List String) (env : List (String × String)) :
    List (String × String) :=
  lines.foldl envStep env

/-! ## Response Normalizer (`reasoning_proxy.py`) -/

/-- Index of the first occurrence of `pat` as a contiguous sublist of `s`
(Python `s.find(pat)` / the split point of `s.split(pat, 1)`). -/
def findSub (pat : List Char) : List Char → Option Nat
  | [] => if pat.isPrefixOf ([] : List Char) then some 0 else none
  | c :: t =>
    if pat.isPrefixOf (c :: t) then some 0
    else (findSub pat t).map (· + 1)

/-- The ordered marker list of `ReasoningProxyHandler.do_POST` (line 65). -/
def markers : List String := ["</think>", "</reasoning>", "**Answer:**", "Answer:"]

/-- The marker loop (lines 65-70): for each marker in order, if it occurs in
the reasoning text and the stripped text after its first occurrence is
non-empty, that stripped text is the extracted content; otherwise move on to
the next marker. -/
def markerScan : List (List Char) → List Char → Option (List Char)
  | [], _ => none
  | m :: rest, r =>
    match findSub m r with
    | none => markerScan rest r
    | some i =>
      let t := pyStrip (r.drop (i + m.length))
      if t.isEmpty then markerScan rest r else some t

/-- Python `str.split('\n')` (keeps empty pieces; `"".split('\n') == [""]`). -/
def splitNl : List Char → List (List Char)
  | [] => [[]]
  | c :: t =>
    let r := splitNl t
    if c = '\n' then [] :: r
    else
      match r with
      | [] => [[c]]
      | h :: rt => (c :: h) :: rt

/-- The fallback of lines 73-79: the last non-empty stripped line of the
stripped reasoning text, or the reasoning text itself — unstripped — when
there is no such line. -/
def fallbackContent (r : List Char) : List Char :=
  let lines := ((splitNl (pyStrip r)).map pyStrip).filter (fun l => !l.isEmpty)
  match lines.getLast? with
  | some l => l
  | none => r

/-- The replacement content the Response Normalizer derives from a non-empty
`reasoning_content` string (lines 64-79). -/
def extractContent (r : String) : String :=
  String.mk (match markerScan (markers.map String.toList) r.toList with
    | some c => c
    | none => fallbackContent r.toList)

/-- The per-message mutation of `ReasoningProxyHandler.do_POST` (lines 57-79):
when `content` is falsy and `reasoning_content` truthy, set `content` to the
extracted answer.  A truthy non-string `reasoning_content` makes the Python
code raise (`split`/`strip` on a non-string), modelled as `none`. -/
def normalizeMessage (ms : List (String × JVal)) :
    Option (List (String × JVal)) :=
  if truthy ((getK ms "content").getD .null) = false ∧
      truthy ((getK ms "reasoning_content").getD .null) = true then
    match getK ms "reasoning_content" with
    | some (.str r) => some (setK ms "content" (.str (extractContent r)))
    | _ => none
  else some ms

/-- One entry of `response_data['choices']`.  `choice.get('message', {})` on a
missing key yields a fresh dict whose mutation is lost, so the choice is
returned unchanged; a non-object choice or a non-object `message` value makes
the Python code raise, modelled as `none`. -/
def normalizeChoice : JVal → Option JVal
  | .obj fs =>
    match getK fs "message" with
    | none => some (.obj fs)
    | some (.obj ms) =>
        (normalizeMessage ms).map (fun ms2 => .obj (setK fs "message" (.obj ms2)))
    | some _ => none
  | _ => none

/-- The whole response transformation (lines 55-79): rewrite every choice when
a `choices` key is present; `none` models an uncaught exception. -/
def normalizeResponse : JVal → Option JVal
  | .obj fs =>
    match getK fs "choices" with
    | none => some (.obj fs)
    | some (.arr cs) =>
        (cs.mapM normalizeChoice).map (fun cs2 => .obj (setK fs "choices" (.arr cs2)))
    | some _ => none
  | .str s => if (findSub "choices".toList s.toList).isSome then none else some (.str s)
  | .arr xs =>
      if xs.any (fun v => match v with | .str s => s == "choices" | _ => false)
      then none else some (.arr xs)
  | _ => none

/-- The stripped text after the first occurrence of marker `m` in `r`, when
`m` occurs at all. -/
def markerHit (r m : String) : Option (List Char) :=
  (findSub m.toList r.toList).map
    (fun i => pyStrip (r.toList.drop (i + m.toList.length)))

/-- The extraction rule in the words of the specification (amended in the
no-lines fallback to return the reasoning text unstripped, as the code does):
take the first marker, in the fixed priority order, whose stripped trailing
text in the reasoning text is non-empty, and return that trailing text;
otherwise return the last of the non-empty stripped lines of the reasoning
text, or the full reasoning text when there is none. -/
def specExtract (r : String) : String :=
  match markers.find? (fun m => !((markerHit r m).getD []).isEmpty) with
  | some m => String.mk ((markerHit r m).getD [])
  | none =>
    let lines := ((splitNl (pyStrip r.toList)).map pyStrip).filter (fun l => !l.isEmpty)
    match lines.getLast? with
    | some l => String.mk l
    | none => r

/-! ## Benchmark filters (`tasks/ukrainian_bench/common_filters.py`) -/

/-- `re.sub(r'<think>.*?</think>\s*', '', resp, flags=re.DOTALL)`, following
the scan of `re.sub`: find the leftmost `<think>` with a later `</think>`,
delete through the first such `</think>` and the whitespace run after it, keep
the prefix as is, and continue scanning the remainder.  The fuel argument only
bounds the recursion; `stripThinkPairs` supplies more fuel than the scan can
consume, as `stripThinkPairsF_fuel` proves. -/
def stripThinkPairsF : Nat → List Char → List Char
  | 0, s => s
  | fuel + 1, s =>
    match findSub "<think>".toList s with
    | none => s
    | some i =>
      match findSub "</think>".toList (s.drop (i + 7)) with
      | none => s
      | some j =>
        s.take i ++
          stripThinkPairsF fuel (((s.drop (i + 7)).drop (j + 8)).dropWhile isPySpace)

def stripThinkPairs (s : List Char) : List Char := stripThinkPairsF (s.length + 1) s

/-- `re.sub(r'.*?</think>\s*', '', clean, flags=re.DOTALL)`: each match eats
everything up to the next `</think>` plus the whitespace after it, so the scan
deletes through the last `</think>`. -/
def stripDanglingF : Nat → List Char → List Char
  | 0, s => s
  | fuel + 1, s =>
    match findSub "</think>".toList s with
    | none => s
    | some i => stripDanglingF fuel ((s.drop (i + 8)).dropWhile isPySpace)

def stripDangling (s : List Char) : List Char := stripDanglingF (s.length + 1) s

/-- Python regex `\w` (ASCII-exact; non-ASCII characters — e.g. Cyrillic
letters in the benchmark responses — are word characters). -/
def isWordChar (c : Char) : Bool := c.isAlphanum || c = '_' || 128 ≤ c.toNat

/-- A `\b` word boundary against the neighbouring character (`none` at either
end of the string). -/
def boundaryOk : Option Char → Bool
  | none => true
  | some c => !isWordChar c

/-- `re.search` for the single-character pattern `\b([class])\b`: the leftmost
character of the class with word boundaries on both sides, scanning with the
previous character at hand. -/
def findStandalone (cls : Char → Bool) : Option Char → List Char → Option Char
  | _, [] => none
  | prev, c :: rest =>
    if cls c && boundaryOk prev && boundaryOk rest.head? then some c
    else findStandalone cls (some c) rest

/-- The character class `[A-Da-d]`. -/
def letterCls (c : Char) : Bool := ['A', 'B', 'C', 'D', 'a', 'b', 'c', 'd'].contains c

/-- The character class `[1-4]`. -/
def digitCls (c : Char) : Bool := ['1', '2', '3', '4'].contains c

/-- The `num_to_letter` lookup with Python `dict.get(k, k)` default. -/
def numToLetter (d : Char) : String :=
  if d = '1' then "A" else if d = '2' then "B"
  else if d = '3' then "C" else if d = '4' then "D" else String.mk [d]

/-- The thinking-tag stripping shared by both filters (lines 47-48). -/
def cleanResp (resp : String) : List Char :=
  stripDangling (stripThinkPairs resp.toList)

/-- The per-response extraction of `extract_answer_letter` (lines 47-64). -/
def extractOne (resp : String) : String :=
  match findStandalone letterCls none (cleanResp resp) with
  | some c => String.mk [c.toUpper]
  | none =>
    match findStandalone digitCls none (cleanResp resp) with
    | some d => numToLetter d
    | none => ""

/-- `extract_answer_letter` (the ignored `docs` argument is omitted). -/
def extract_answer_letter (resps : List String) : List String :=
  resps.map extractOne

/-- Position-indexed form of the standalone-character match, with `prev` as
the character preceding the whole list: the character at index `i` is in the
class and has word boundaries on both sides. -/
def standaloneAtFrom (cls : Char → Bool) (prev : Option Char) (l : List Char)
    (i : Nat) : Bool :=
  match l[i]? with
  | none => false
  | some c =>
      cls c && boundaryOk (if i == 0 then prev else l[i - 1]?) &&
        boundaryOk l[i + 1]?

/-- The standalone-character match at index `i` of the whole string. -/
def standaloneAt (cls : Char → Bool) (l : List Char) (i : Nat) : Bool :=
  standaloneAtFrom cls none l i

/-- The leftmost index with a standalone class character. -/
def firstStandaloneIdx (cls : Char → Bool) (l : List Char) : Option Nat :=
  (List.range l.length).find? (standaloneAt cls l)

/-! ## Theorems: the Request Normalizer -/

theorem do_POST_forward_shape (method path : String) (data : List (String × JVal))
    (hidden : Bool) (effort : String) (key : Option String)
    (fwd : List (String × JVal))
    (h : do_POST method path (some data) hidden effort key = .forward fwd) :
    ∃ d1, transformMessages data = some d1 ∧
      fwd = popK (popK
        (if hidden then
          setK (setK d1 "reasoning_format" (.str "hidden"))
            "reasoning_effort" (.str effort)
         else d1) "tokenized_requests") "extra_body" := by
  unfold do_POST at h
  split at h
  · exact Outcome.noConfusion h
  split at h
  · exact Outcome.noConfusion h
  dsimp only at h
  cases htr : transformMessages data with
  | none => rw [htr] at h; exact Outcome.noConfusion h
  | some d1 =>
    rw [htr] at h
    dsimp only at h
    cases key with
    | none => exact Outcome.noConfusion h
    | some k =>
      dsimp only at h
      split at h
      · exact Outcome.noConfusion h
      · exact ⟨d1, rfl, (Outcome.forward.inj h).symm⟩

/-- C2: for every inbound request whose body has a `messages` list, the
forwarded body's `messages` are exactly the per-entry normalizations, and each
normalized message has exactly the keys `role` (the original value, defaulting
to `"user"` when absent) and `content` (defaulting to `""` when absent), plus
`name` if and only if `name` was present and truthy; all other per-message
fields are discarded. -/
theorem message_normalization :
    (∀ path data msgs hidden effort key fwd,
        do_POST "POST" path (some data) hidden effort (some key) = .forward fwd →
        getK data "messages" = some (.arr msgs) →
        ∃ cl, msgs.mapM cleanMsg = some cl ∧
          getK fwd "messages" = some (.arr cl)) ∧
    (∀ ms, cleanMsg (.obj ms) = some (.obj (cleanFields ms))) ∧
    (∀ ms v, getK ms "name" = some v → truthy v = true →
        keysOf (cleanFields ms) = ["role", "content", "name"] ∧
        getK (cleanFields ms) "name" = some v) ∧
    (∀ ms v, getK ms "name" = some v → truthy v = false →
        keysOf (cleanFields ms) = ["role", "content"]) ∧
    (∀ ms, getK ms "name" = none → keysOf (cleanFields ms) = ["role", "content"]) ∧
    (∀ ms, getK (cleanFields ms) "role" = some ((getK ms "role").getD (.str "user"))) ∧
    (∀ ms, getK (cleanFields ms) "content" = some ((getK ms "content").getD (.str ""))) := by
  refine ⟨?_, ?_, ?_, ?_, ?_, ?_, ?_⟩
  · intro path data msgs hidden effort key fwd h hmsg
    obtain ⟨d1, htr, hfwd⟩ := do_POST_forward_shape _ _ _ _ _ _ _ h
    unfold transformMessages at htr
    rw [hmsg] at htr
    dsimp only at htr
    cases hcl : msgs.mapM cleanMsg with
    | none => rw [hcl] at htr; exact Option.noConfusion htr
    | some cl =>
      refine ⟨cl, rfl, ?_⟩
      rw [hcl] at htr
      have hd1 : d1 = setK data "messages" (.arr cl) := (Option.some.inj htr).symm
      subst hd1
      subst hfwd
      rw [getK_popK_ne _ _ _ (by decide), getK_popK_ne _ _ _ (by decide)]
      cases hidden with
      | false => simp [getK_setK_self]
      | true =>
        simp only [if_pos]
        rw [getK_setK_ne _ _ _ _ (by decide), getK_setK_ne _ _ _ _ (by decide),
          getK_setK_self]
  · intro ms; rfl
  · intro ms v hn ht
    constructor <;> simp [cleanFields, keysOf, hn, ht, getK]
  · intro ms v hn ht
    simp [cleanFields, keysOf, hn, ht]
  · intro ms hn
    simp [cleanFields, keysOf, hn]
  · intro ms
    cases hn : getK ms "name" with
    | none => simp [cleanFields, hn, getK]
    | some v => by_cases ht : truthy v <;> simp [cleanFields, hn, ht, getK]
  · intro ms
    cases hn : getK ms "name" with
    | none => simp [cleanFields, hn, getK]
    | some v => by_cases ht : truthy v <;> simp [cleanFields, hn, ht, getK]

theorem message_normalization_witness :
    ∃ cl, [JVal.obj [("role", JVal.str "user"), ("content", JVal.str "hi"),
        ("junk", JVal.num 1)]].mapM cleanMsg = some cl ∧
      getK [("messages", JVal.arr [JVal.obj
        [("role", JVal.str "user"), ("content", JVal.str "hi")]])] "messages" =
        some (.arr cl) :=
  message_normalization.1 "/v1/chat/completions"
    [("messages", JVal.arr [JVal.obj [("role", JVal.str "user"),
      ("content", JVal.str "hi"), ("junk", JVal.num 1)]])]
    [JVal.obj [("role", JVal.str "user"), ("content", JVal.str "hi"),
      ("junk", JVal.num 1)]]
    false "low" "k"
    [("messages", JVal.arr [JVal.obj
      [("role", JVal.str "user"), ("content", JVal.str "hi")]])]
    rfl rfl

/-- C3: a POST to a chat-completions path whose body fails JSON parsing is
answered with status 400 and nothing is forwarded upstream. -/
theorem malformed_json_rejected (path : String) (hidden : Bool)
    (effort : String) (key : Option String) (hp : pathOk path = true) :
    do_POST "POST" path none hidden effort key = .httpError 400 ∧
      ∀ b, do_POST "POST" path none hidden effort key ≠ .forward b := by
  have h : do_POST "POST" path none hidden effort key = .httpError 400 := by
    unfold do_POST
    simp [hp]
  exact ⟨h, fun b hb => Outcome.noConfusion (h.symm.trans hb)⟩

theorem malformed_json_rejected_witness :
    do_POST "POST" "/v1/chat/completions" none false "low" (some "k") =
        .httpError 400 ∧
      ∀ b, do_POST "POST" "/v1/chat/completions" none false "low" (some "k") ≠
        .forward b :=
  malformed_json_rejected "/v1/chat/completions" false "low" (some "k") rfl

/-- C4: with the reasoning-hidden flag set and any configured effort level
(low, medium or high), every forwarded body carries
`reasoning_format = "hidden"` and `reasoning_effort = <effort>`. -/
theorem reasoning_params_injected (path : String) (data : List (String × JVal))
    (effort : String) (key : String) (fwd : List (String × JVal))
    (he : effort = "low" ∨ effort = "medium" ∨ effort = "high")
    (h : do_POST "POST" path (some data) true effort (some key) = .forward fwd) :
    getK fwd "reasoning_format" = some (.str "hidden") ∧
      getK fwd "reasoning_effort" = some (.str effort) := by
  obtain ⟨d1, htr, hfwd⟩ := do_POST_forward_shape _ _ _ _ _ _ _ h
  subst hfwd
  simp only [if_pos]
  constructor
  · rw [getK_popK_ne _ _ _ (by decide), getK_popK_ne _ _ _ (by decide),
      getK_setK_ne _ _ _ _ (by decide), getK_setK_self]
  · rw [getK_popK_ne _ _ _ (by decide), getK_popK_ne _ _ _ (by decide),
      getK_setK_self]

theorem reasoning_params_injected_witness :
    getK [("reasoning_format", JVal.str "hidden"),
        ("reasoning_effort", JVal.str "medium")] "reasoning_format" =
      some (JVal.str "hidden") ∧
    getK [("reasoning_format", JVal.str "hidden"),
        ("reasoning_effort", JVal.str "medium")] "reasoning_effort" =
      some (JVal.str "medium") :=
  reasoning_params_injected "/v1/chat/completions" [] "medium" "k"
    [("reasoning_format", JVal.str "hidden"),
     ("reasoning_effort", JVal.str "medium")]
    (Or.inr (Or.inl rfl)) rfl

/-- C5: `tokenized_requests` and `extra_body`, present in the parsed input
body with any values, are absent from every forwarded body. -/
theorem unsupported_fields_removed (method path : String)
    (data : List (String × JVal)) (hidden : Bool) (effort : String)
    (key : Option String) (fwd : List (String × JVal)) (v w : JVal)
    (hv : getK data "tokenized_requests" = some v)
    (hw : getK data "extra_body" = some w)
    (h : do_POST method path (some data) hidden effort key = .forward fwd) :
    getK fwd "tokenized_requests" = none ∧ getK fwd "extra_body" = none := by
  obtain ⟨d1, htr, hfwd⟩ := do_POST_forward_shape _ _ _ _ _ _ _ h
  subst hfwd
  constructor
  · rw [getK_popK_ne _ _ _ (by decide), getK_popK_self]
  · rw [getK_popK_self]

theorem unsupported_fields_removed_witness :
    getK ([] : List (String × JVal)) "tokenized_requests" = none ∧
      getK ([] : List (String × JVal)) "extra_body" = none :=
  unsupported_fields_removed "POST" "/v1/chat/completions"
    [("tokenized_requests", JVal.bool true), ("extra_body", JVal.obj [])]
    false "low" (some "k") [] (JVal.bool true) (JVal.obj [])
    rfl rfl rfl

/-- C8, counterexample: a GET to the chat-completions path is answered with
501 (Unsupported method, from the `BaseHTTPRequestHandler` dispatch), not with
the 404 the claim states. -/
theorem non_post_is_501_not_404 :
    do_POST "GET" "/v1/chat/completions" (some []) false "low" (some "k") =
        .httpError 501 ∧
      do_POST "GET" "/v1/chat/completions" (some []) false "low" (some "k") ≠
        .httpError 404 := by
  refine ⟨rfl, fun h => ?_⟩
  have h2 : (501 : Nat) = 404 := Outcome.httpError.inj h
  omega

/-- C8, amended: a POST to a path not ending in `/chat/completions` is
rejected with 404; a request with any other HTTP method is rejected with 501
(Unsupported method); in neither case is anything forwarded upstream. -/
theorem request_dispatch (method path : String)
    (parsed : Option (List (String × JVal))) (hidden : Bool) (effort : String)
    (key : Option String) :
    (method ≠ "POST" →
        do_POST method path parsed hidden effort key = .httpError 501) ∧
    (pathOk path = false →
        do_POST "POST" path parsed hidden effort key = .httpError 404) ∧
    (∀ b, method ≠ "POST" ∨ pathOk path = false →
        do_POST method path parsed hidden effort key ≠ .forward b) := by
  refine ⟨fun hm => by unfold do_POST; simp [hm], fun hp => by unfold do_POST; simp [hp],
    fun b hmp hb => ?_⟩
  cases hmp with
  | inl hm =>
    unfold do_POST at hb
    simp [hm] at hb
  | inr hp =>
    by_cases hm : method = "POST"
    · subst hm
      unfold do_POST at hb
      simp [hp] at hb
    · unfold do_POST at hb
      simp [hm] at hb

theorem request_dispatch_witness :
    do_POST "GET" "/v1/other" (some []) false "low" (some "k") =
      .httpError 501 :=
  (request_dispatch "GET" "/v1/other" (some []) false "low" (some "k")).1
    (by decide)

/-! ## Theorems: `.env` loading -/

theorem mem_pyStrip {c : Char} {l : List Char} (h : c ∈ pyStrip l) : c ∈ l := by
  unfold pyStrip trimRight trimLeft at h
  rw [List.mem_reverse] at h
  have h2 := List.dropWhile_subset isPySpace h
  rw [List.mem_reverse] at h2
  exact List.dropWhile_subset isPySpace h2

theorem pyStrip_cons_head (c : Char) (hc : isPySpace c = false) (t : List Char) :
    ∃ u, pyStrip (c :: t) = c :: u := by
  unfold pyStrip trimLeft trimRight
  rw [List.dropWhile_cons_of_neg (by simp [hc])]
  rw [List.reverse_cons, List.dropWhile_append]
  split
  · refine ⟨[], ?_⟩
    rw [List.dropWhile_cons_of_neg (by simp [hc])]
    rfl
  · refine ⟨(t.reverse.dropWhile isPySpace).reverse, ?_⟩
    rw [List.reverse_append]
    rfl

theorem parseEnvLine_comment (line : String) (h : line.toList.head? = some '#') :
    parseEnvLine line = none := by
  cases hl : line.toList with
  | nil => rw [hl] at h; exact Option.noConfusion h
  | cons c t =>
    rw [hl] at h
    have hc : c = '#' := by simpa using h
    subst hc
    obtain ⟨u, hu⟩ := pyStrip_cons_head '#' (by decide) t
    unfold parseEnvLine
    rw [hl, hu]
    simp

theorem parseEnvLine_no_eq (line : String) (h : '=' ∉ line.toList) :
    parseEnvLine line = none := by
  unfold parseEnvLine
  simp
  intro _ _
  exact fun hmm => h (mem_pyStrip hmm)

theorem getK_envStep (env : List (String × String)) (line : String)
    (k : String) (v : String) (h : getK env k = some v) :
    getK (envStep env line) k = some v := by
  unfold envStep
  cases parseEnvLine line with
  | none => exact h
  | some kv =>
    dsimp only
    split
    · rename_i hcond
      show getK (kv :: env) k = some v
      unfold getK
      by_cases he : kv.1 = k
      · rw [he] at hcond
        rw [h] at hcond
        exact absurd hcond.2.2 (by simp)
      · simp [he, h]
    · exact h

/-- C9: loading the `.env` file is first-set-wins — a key already present in
the process environment keeps its value through `load_env`; a line starting
with `#` or a line without `'='` changes nothing; surrounding double or
single quotes on values are stripped. -/
theorem load_env_first_set_wins :
    (∀ lines env k v, getK env k = some v →
        getK (load_env lines env) k = some v) ∧
    (∀ env line, line.toList.head? = some '#' → envStep env line = env) ∧
    (∀ env line, '=' ∉ line.toList → envStep env line = env) ∧
    parseEnvLine "GROQ_API_KEY=\"secret\"" = some ("GROQ_API_KEY", "secret") ∧
    parseEnvLine " TOKEN = 'abc' " = some ("TOKEN", "abc") := by
  refine ⟨?_, ?_, ?_, by decide, by decide⟩
  · intro lines
    induction lines with
    | nil => intro env k v h; exact h
    | cons line rest ih =>
      intro env k v h
      exact ih _ _ _ (getK_envStep env line k v h)
  · intro env line h
    unfold envStep
    rw [parseEnvLine_comment line h]
  · intro env line h
    unfold envStep
    rw [parseEnvLine_no_eq line h]

theorem load_env_first_set_wins_witness :
    getK (load_env ["# comment", "GROQ_API_KEY=other"]
      [("GROQ_API_KEY", "orig")]) "GROQ_API_KEY" = some "orig" :=
  load_env_first_set_wins.1 ["# comment", "GROQ_API_KEY=other"]
    [("GROQ_API_KEY", "orig")] "GROQ_API_KEY" "orig" rfl

/-! ## Theorems: the Response Normalizer -/

theorem markerScan_eq_find (r : String) (mlist : List String) :
    markerScan (mlist.map String.toList) r.toList =
      (mlist.find? (fun m => !((markerHit r m).getD []).isEmpty)).map
        (fun m => (markerHit r m).getD []) := by
  induction mlist with
  | nil => rfl
  | cons m ms ih =>
    rw [List.map_cons]
    unfold markerScan
    rw [List.find?_cons]
    cases hf : findSub m.toList r.toList with
    | none =>
      have hm : markerHit r m = none := by unfold markerHit; rw [hf]; rfl
      simp only [hm, Option.getD, List.isEmpty, Bool.not_true]
      exact ih
    | some i =>
      have hm : markerHit r m =
          some (pyStrip (r.toList.drop (i + m.toList.length))) := by
        unfold markerHit; rw [hf]; rfl
      dsimp only
      by_cases ht : (pyStrip (r.toList.drop (i + m.toList.length))).isEmpty
      · rw [if_pos ht]
        simp only [hm, Option.getD, ht, Bool.not_true]
        exact ih
      · rw [if_neg ht]
        rw [Bool.not_eq_true] at ht
        have hp : (!((markerHit r m).getD []).isEmpty) = true := by
          rw [hm]
          show (!(pyStrip (r.toList.drop (i + m.toList.length))).isEmpty) = true
          rw [ht]
          rfl
        simp only [hp]
        show some (pyStrip (List.drop (i + m.toList.length) r.toList)) =
          some ((markerHit r m).getD [])
        rw [hm]
        rfl

theorem extractContent_eq_specExtract (r : String) :
    extractContent r = specExtract r := by
  unfold extractContent specExtract
  rw [markerScan_eq_find]
  cases hf : markers.find? (fun m => !((markerHit r m).getD []).isEmpty) with
  | none =>
    dsimp only [Option.map]
    unfold fallbackContent
    dsimp only
    cases hl : (((splitNl (pyStrip r.toList)).map pyStrip).filter
        (fun l => !l.isEmpty)).getLast? with
    | none => rfl
    | some l => rfl
  | some m =>
    dsimp only [Option.map]

/-- C1, counterexample: for a message with empty `content` and whitespace-only
(hence truthy) `reasoning_content` `" \n "` — no marker occurs and there is no
non-empty line — the code sets `content` to the untrimmed `reasoning_content`
`" \n "`, not to its trimmed form `""` as the claim states. -/
theorem reasoning_fallback_untrimmed :
    normalizeMessage
        [("content", JVal.str ""), ("reasoning_content", JVal.str " \n ")] =
      some [("content", JVal.str " \n "),
            ("reasoning_content", JVal.str " \n ")] ∧
    JVal.str " \n " ≠ JVal.str "" :=
  ⟨rfl, fun h => absurd (JVal.str.inj h) (by decide)⟩

/-- C1, amended: for every choice message with falsy (empty or absent)
`content` and non-empty string `reasoning_content`, the Response Normalizer
sets `content` to the result of the spec's marker search — the trimmed text
after the first marker (priority `</think>`, `</reasoning>`, `**Answer:**`,
`Answer:`) whose trailing text is non-empty after trimming, else the last
non-empty trimmed line, else the full (untrimmed, where the claim said
trimmed) `reasoning_content`.  In particular `"blah </think> 42"` yields
`"42"`. -/
theorem reasoning_content_extraction :
    (∀ r, extractContent r = specExtract r) ∧
    (∀ ms r, truthy ((getK ms "content").getD .null) = false →
        getK ms "reasoning_content" = some (.str r) → r ≠ "" →
        normalizeMessage ms = some (setK ms "content" (.str (specExtract r)))) ∧
    extractContent "blah </think> 42" = "42" := by
  refine ⟨extractContent_eq_specExtract, ?_, by decide⟩
  intro ms r hc hrc hr
  unfold normalizeMessage
  rw [hrc]
  rw [if_pos ⟨hc, by
    show (r != "") = true
    exact bne_iff_ne.mpr hr⟩]
  dsimp only
  rw [extractContent_eq_specExtract]

theorem reasoning_content_extraction_witness :
    normalizeMessage [("content", JVal.str ""),
        ("reasoning_content", JVal.str "blah </think> 42")] =
      some (setK [("content", JVal.str ""),
        ("reasoning_content", JVal.str "blah </think> 42")] "content"
        (.str (specExtract "blah </think> 42"))) :=
  reasoning_content_extraction.2.1
    [("content", JVal.str ""), ("reasoning_content", JVal.str "blah </think> 42")]
    "blah </think> 42" rfl rfl (by decide)

/-- C6: a choice whose message already has truthy (non-empty) `content` passes
through the Response Normalizer unchanged — the whole choice object, hence
every field of it, is returned as is — whatever `reasoning_content` holds. -/
theorem nonempty_content_passthrough (fs ms : List (String × JVal))
    (hmsg : getK fs "message" = some (.obj ms))
    (hc : truthy ((getK ms "content").getD .null) = true) :
    normalizeChoice (.obj fs) = some (.obj fs) := by
  unfold normalizeChoice
  dsimp only
  rw [hmsg]
  dsimp only
  unfold normalizeMessage
  rw [if_neg (by rw [hc]; simp)]
  dsimp only [Option.map]
  rw [setK_eq_of_getK fs "message" (.obj ms) hmsg]

/-! ## Theorems: the benchmark filters -/

theorem standaloneAtFrom_zero (cls : Char → Bool) (prev : Option Char)
    (c : Char) (rest : List Char) :
    standaloneAtFrom cls prev (c :: rest) 0 =
      (cls c && boundaryOk prev && boundaryOk rest.head?) := by
  unfold standaloneAtFrom
  rw [List.head?_eq_getElem?]
  simp [List.getElem?_cons_zero]

theorem standaloneAtFrom_succ (cls : Char → Bool) (prev : Option Char)
    (c : Char) (rest : List Char) (i : Nat) :
    standaloneAtFrom cls prev (c :: rest) (i + 1) =
      standaloneAtFrom cls (some c) rest i := by
  unfold standaloneAtFrom
  cases i with
  | zero => simp [List.getElem?_cons_zero, List.getElem?_cons_succ]
  | succ j => simp [List.getElem?_cons_succ]

theorem findStandalone_eq_firstIdx (cls : Char → Bool) :
    ∀ (l : List Char) (prev : Option Char),
      findStandalone cls prev l =
        ((List.range l.length).find? (standaloneAtFrom cls prev l)).bind
          (fun i => l[i]?) := by
  intro l
  induction l with
  | nil => intro prev; rfl
  | cons c rest ih =>
    intro prev
    unfold findStandalone
    rw [List.length_cons, List.range_succ_eq_map]
    by_cases hc : (cls c && boundaryOk prev && boundaryOk rest.head?) = true
    · rw [if_pos hc]
      rw [List.find?_cons_of_pos _ (by rw [standaloneAtFrom_zero]; exact hc)]
      simp [List.getElem?_cons_zero]
    · rw [if_neg hc]
      rw [List.find?_cons_of_neg _ (by rw [standaloneAtFrom_zero]; exact hc)]
      rw [ih (some c)]
      rw [List.find?_map]
      have hp : (standaloneAtFrom cls prev (c :: rest) ∘ Nat.succ) =
          standaloneAtFrom cls (some c) rest := by
        funext i
        exact standaloneAtFrom_succ cls prev c rest i
      rw [hp]
      cases (List.range rest.length).find? (standaloneAtFrom cls (some c) rest) with
      | none => rfl
      | some i => simp [List.getElem?_cons_succ, Nat.succ_eq_add_one]

theorem findStandalone_none_prev (cls : Char → Bool) (l : List Char) :
    findStandalone cls none l =
      (firstStandaloneIdx cls l).bind (fun i => l[i]?) := by
  rw [findStandalone_eq_firstIdx]
  rfl

theorem findStandalone_mem (cls : Char → Bool) :
    ∀ (l : List Char) (prev : Option Char) (c : Char),
      findStandalone cls prev l = some c → cls c = true := by
  intro l
  induction l with
  | nil => intro prev c h; exact Option.noConfusion h
  | cons a rest ih =>
    intro prev c h
    unfold findStandalone at h
    split at h
    · rename_i hcond
      cases Option.some.inj h
      simp only [Bool.and_eq_true] at hcond
      exact hcond.1.1
    · exact ih _ _ h

/-- C10: every element of an `extract_answer_letter` result is either the
empty string or one of the single uppercase letters A, B, C, D — never a
lowercase letter, a digit, or a longer string. -/
theorem extract_answer_letter_range (resps : List String) (s : String)
    (h : s ∈ extract_answer_letter resps) :
    s = "" ∨ s = "A" ∨ s = "B" ∨ s = "C" ∨ s = "D" := by
  unfold extract_answer_letter at h
  obtain ⟨resp, hmem, hs⟩ := List.mem_map.mp h
  subst hs
  unfold extractOne
  cases hl : findStandalone letterCls none (cleanResp resp) with
  | some c =>
    have hc := findStandalone_mem letterCls (cleanResp resp) none c hl
    have hor : c ∈ ['A', 'B', 'C', 'D', 'a', 'b', 'c', 'd'] :=
      List.elem_iff.mp (by simpa [letterCls] using hc)
    simp only [List.mem_cons, List.not_mem_nil, or_false] at hor
    rcases hor with rfl | rfl | rfl | rfl | rfl | rfl | rfl | rfl <;> simp
  | none =>
    cases hd : findStandalone digitCls none (cleanResp resp) with
    | some d =>
      have hcd := findStandalone_mem digitCls (cleanResp resp) none d hd
      have hor : d ∈ ['1', '2', '3', '4'] :=
        List.elem_iff.mp (by simpa [digitCls] using hcd)
      simp only [List.mem_cons, List.not_mem_nil, or_false] at hor
      rcases hor with rfl | rfl | rfl | rfl <;> simp [numToLetter]
    | none => simp

theorem extract_answer_letter_range_witness :
    ("C" : String) ∈ extract_answer_letter ["3"] ∧
      (("C" : String) = "" ∨ ("C" : String) = "A" ∨ ("C" : String) = "B" ∨
        ("C" : String) = "C" ∨ ("C" : String) = "D") :=
  ⟨by decide, extract_answer_letter_range ["3"] "C" (by decide)⟩

/-- C7: `extract_answer_letter` maps a list of responses to a list of the same
length; after the thinking-tag stripping, each element is the uppercased
leftmost standalone (word-bounded) letter of `[A-Da-d]`; when there is none,
the leftmost standalone digit of `[1-4]` mapped through 1→A, 2→B, 3→C, 4→D;
else the empty string.  Concretely `["The answer is C."]` yields `["C"]` and
`["3"]` yields `["C"]`. -/
theorem extract_answer_letter_spec :
    (∀ resps, (extract_answer_letter resps).length = resps.length) ∧
    (∀ resp c,
        (firstStandaloneIdx letterCls (cleanResp resp)).bind
          (fun i => (cleanResp resp)[i]?) = some c →
        extractOne resp = String.mk [c.toUpper]) ∧
    (∀ resp d, firstStandaloneIdx letterCls (cleanResp resp) = none →
        (firstStandaloneIdx digitCls (cleanResp resp)).bind
          (fun i => (cleanResp resp)[i]?) = some d →
        extractOne resp = numToLetter d) ∧
    (∀ resp, firstStandaloneIdx letterCls (cleanResp resp) = none →
        firstStandaloneIdx digitCls (cleanResp resp) = none →
        extractOne resp = "") ∧
    extract_answer_letter ["The answer is C."] = ["C"] ∧
    extract_answer_letter ["3"] = ["C"] := by
  refine ⟨?_, ?_, ?_, ?_, by decide, by decide⟩
  · intro resps
    unfold extract_answer_letter
    exact List.length_map _ _
  · intro resp c h
    unfold extractOne
    rw [findStandalone_none_prev letterCls, h]
  · intro resp d hl h
    unfold extractOne
    rw [findStandalone_none_prev letterCls, hl]
    rw [findStandalone_none_prev digitCls, h]
    rfl
  · intro resp hl hd
    unfold extractOne
    rw [findStandalone_none_prev letterCls, hl]
    rw [findStandalone_none_prev digitCls, hd]
    rfl

theorem extract_answer_letter_spec_witness :
    extractOne "The answer is C." = String.mk ['C'.toUpper] :=
  extract_answer_letter_spec.2.1 "The answer is C." 'C' (by decide)

theorem nonempty_content_passthrough_witness :
    normalizeChoice (.obj [("message", .obj [("content", JVal.str "hi"),
        ("reasoning_content", JVal.str "thoughts </think> other")]),
        ("index", JVal.num 0)]) =
      some (.obj [("message", .obj [("content", JVal.str "hi"),
        ("reasoning_content", JVal.str "thoughts </think> other")]),
        ("index", JVal.num 0)]) :=
  nonempty_content_passthrough
    [("message", .obj [("content", JVal.str "hi"),
      ("reasoning_content", JVal.str "thoughts </think> other")]),
      ("index", JVal.num 0)]
    [("content", JVal.str "hi"),
      ("reasoning_content", JVal.str "thoughts </think> other")]
    rfl rfl

end UkrLLM
